import Mathlib

/-!
Shallow embedding of the snapshot-resolution core of httm
(src/lookup.rs and src/deleted.rs), together with theorems checking the
specification's claims about it.

Modelling conventions:
* Filesystem paths (PathBuf, mount-point strings) are modelled by their
  component lists (List String).  Rust compares paths component-wise
  (Path::starts_with, strip_prefix, Path equality), which is List.isPrefixOf
  and friends on the component lists.  The byte length of a rendered
  absolute path such as /a/b is recovered by pathLen.
* SystemTime is modelled as Nat; u64 sizes as Nat.
* Fallible filesystem reads are an explicit environment, Filesystem;
  a none result models an Err from read_dir / symlink_metadata / modified.
* An FxHashMap collected from an iterator is modelled as an association
  list built by hashMapOfList: a later binding for a key overwrites the
  earlier value, and iteration visits keys in first-insertion order (the
  real map's iteration order is unspecified; no theorem below depends on a
  particular order except where a claim is explicitly refuted by one
  realizable order).
* rayon's and itertools' max_by_key return the latest element among equal
  maxima; lastMaxBy implements exactly that fold.
-/

namespace Httm

/-- A filesystem path, as its list of components (all paths in play are
absolute; the root is the empty list). -/
abbrev PathBuf := List String

/-- Byte length of the rendered absolute path (one separator before each
component); used where the Rust source takes the byte length of a
mount-point string (`x.len()`, `as_os_str().len()`). -/
def pathLen (p : PathBuf) : Nat :=
  p.foldl (fun acc c => acc + 1 + c.length) 0

/-- Byte-suffix test on strings, as Rust's `str::ends_with`.  (For valid
UTF-8, byte suffixes and char-list suffixes coincide.) -/
def strEndsWith (s post : String) : Bool :=
  post.data.isSuffixOf s.data

/-- The opaque error carrier: HttmError::new wraps a message string. -/
structure HttmError where
  msg : String
deriving DecidableEq, Repr

/-- HttmError::new. -/
def HttmError.new (msg : String) : HttmError := ⟨msg⟩

/-- `FilesystemAndMount`: one line of the mount inventory. -/
structure FilesystemAndMount where
  filesystem : String
  mount : PathBuf
deriving DecidableEq, Repr

/-- `PathData`: a live or historical path with cached metadata. -/
structure PathData where
  path_buf : PathBuf
  system_time : Nat
  size : Nat
  is_phantom : Bool
deriving DecidableEq, Repr

/-- File-kind tag of a directory entry. -/
inductive FileKind
  | file
  | dir
  | symlink
  | other
deriving DecidableEq, Repr

/-- `PathAndMaybeFileType`: a bare directory entry. -/
structure PathAndMaybeFileType where
  path : PathBuf
  file_type : Option FileKind
deriving DecidableEq, Repr

/-- One entry yielded by read_dir: its file name and file-type tag
(path() is the parent directory joined with the file name). -/
structure DirEntry where
  fileName : String
  file_type : Option FileKind
deriving DecidableEq, Repr

/-- The filesystem environment: every syscall the core performs.
none models an Err result. metadata yields (modify time, size); none is
"phantom" (metadata read failed).  symlinkMetadata yields some m when the
stat succeeds, where m is the result of modified() on that metadata. -/
structure Filesystem where
  readDir : PathBuf → Option (List DirEntry)
  metadata : PathBuf → Option (Nat × Nat)
  symlinkMetadata : PathBuf → Option (Option Nat)

/-- Modelled from the spec: PathData::from is defined outside src/ (the
data module is not part of the extracted core).  Spec section 3 PathRecord:
"absolute path, a cached size and last-modified timestamp (absent ⇒
phantom), and a phantom flag"; Design notes: "Phantom is defined as
metadata read failed or returned NotFound." -/
def PathData.fromPath (fs : Filesystem) (p : PathBuf) : PathData :=
  match fs.metadata p with
  | some ms => ⟨p, ms.1, ms.2, false⟩
  | none => ⟨p, 0, 0, true⟩

/-- `UserDefined` snap point directories. -/
structure DefinedDirs where
  snap_dir : PathBuf
  local_dir : PathBuf
deriving DecidableEq, Repr

/-- `SnapPoint`: mount topology. -/
inductive SnapPoint
  | UserDefined (defined_dirs : DefinedDirs)
  | Native (mount_collection : List FilesystemAndMount)
deriving DecidableEq, Repr

/-- The fields of Config the core reads. -/
structure Config where
  opt_alt_replicated : Bool
  opt_no_live_vers : Bool
  snap_point : SnapPoint
deriving DecidableEq, Repr

/-- `NativeDatasetType`. -/
inductive NativeDatasetType
  | MostImmediate
  | AltReplicated
deriving DecidableEq, Repr

/-- `SearchDirs`: one probe plan. -/
structure SearchDirs where
  hidden_snapshot_dir : PathBuf
  relative_path : PathBuf
deriving DecidableEq, Repr

/-- The latest element among those maximizing key, as rayon's / std's
max_by_key ("if several elements are equally maximum, the latest element
is returned"); none exactly on the empty list. -/
def lastMaxBy (key : α → Nat) (l : List α) : Option α :=
  l.foldl
    (fun acc x =>
      match acc with
      | none => some x
      | some b => if key b ≤ key x then some x else some b)
    none

/-- Insert a binding into an association list: an existing binding for the
key is overwritten in place, otherwise the binding is appended. -/
def insertKV [DecidableEq κ] (k : κ) (v : α) : List (κ × α) → List (κ × α)
  | [] => [(k, v)]
  | kv :: rest => if kv.1 = k then (k, v) :: rest else kv :: insertKV k v rest

/-- An FxHashMap collected from a key-value sequence, as an association
list: later bindings overwrite earlier ones; iteration order is
first-insertion order of the surviving keys. -/
def hashMapOfList [DecidableEq κ] (kvs : List (κ × α)) : List (κ × α) :=
  kvs.foldl (fun m kv => insertKV kv.1 kv.2 m) []

/-- HashMap::get on the association-list model. -/
def lookupKey [DecidableEq κ] (m : List (κ × α)) (k : κ) : Option α :=
  match m with
  | [] => none
  | kv :: rest => if kv.1 = k then some kv.2 else lookupKey rest k

/-- Insertion step of sortByKey. -/
def insertByKey (key : α → Nat) (a : α) : List α → List α
  | [] => [a]
  | b :: bs => if key a ≤ key b then a :: b :: bs else b :: insertByKey key a bs

/-- Sorting by a Nat key (models sort_unstable_by_key / par_sort_unstable_by_key;
only sortedness and content matter to any claim). -/
def sortByKey (key : α → Nat) : List α → List α
  | [] => []
  | a :: as => insertByKey key a (sortByKey key as)

/-- Rust Path::strip_prefix on component lists: remove base as a leading
component run of p, or fail. -/
def stripPre (p base : PathBuf) : Option PathBuf :=
  if base.isPrefixOf p then some (p.drop base.length) else none

def noQualifyingDatasetErr : HttmError :=
  HttmError.new "Could not identify any qualifying dataset.  Maybe consider specifying manually at SNAP_POINT?"

def noBestMatchErr : HttmError :=
  HttmError.new "There is no best match for a ZFS dataset to use for this path."

def noAltReplicatedErr : HttmError :=
  HttmError.new "httm was unable to detect an alternate replicated mount point.  Perhaps the replicated filesystem is not mounted?"

def localDirHintErr : HttmError :=
  HttmError.new "Are you sure you\x27re in the correct working directory?  Perhaps you need to set the LOCAL_DIR value."

def snapDirHintErr : HttmError :=
  HttmError.new "Are you sure you\x27re in the correct working directory?  Perhaps you need to set the SNAP_DIR and LOCAL_DIR values."

def nothingEverExistedErr : HttmError :=
  HttmError.new "Neither a live copy, nor a snapshot copy of such a file appears to exist, so, umm, 🤷? Please try another file."

/-- parent_folder of src/lookup.rs get_immediate_dataset: the parent of
the path; dropLast also covers "the only possible None case is the root",
for which the source substitutes the root itself. -/
def parentFolder (pathdata : PathData) : PathBuf :=
  pathdata.path_buf.dropLast

/-- potential_mountpoints of src/lookup.rs get_immediate_dataset: the
mounts whose mount point is a component-wise prefix of the parent folder,
in inventory order. -/
def potentialMountpoints (pathdata : PathData)
    (mount_collection : List FilesystemAndMount) : List PathBuf :=
  (mount_collection.map (fun fs_and_mounts => fs_and_mounts.mount)).filter
    (fun line => line.isPrefixOf (parentFolder pathdata))

/-- src/lookup.rs get_immediate_dataset: parent of the path (the root when
the parent is undefined), keep mounts that are component-wise prefixes of
the parent, error when none remain, otherwise the latest mount of greatest
byte length. -/
def get_immediate_dataset (pathdata : PathData) (mount_collection : List FilesystemAndMount) :
    Except HttmError PathBuf :=
  let potential_mountpoints := potentialMountpoints pathdata mount_collection
  if potential_mountpoints.isEmpty then
    .error noQualifyingDatasetErr
  else
    match lastMaxBy pathLen potential_mountpoints with
    | some best_potential_mountpoint => .ok best_potential_mountpoint
    | none => .error noBestMatchErr

/-- The reverse index of src/lookup.rs get_alt_replicated_dataset:
mount point as key, filesystem name as value. -/
def uniqueMounts (mount_collection : List FilesystemAndMount) :
    List (PathBuf × String) :=
  hashMapOfList (mount_collection.map (fun fs_and_mounts =>
    (fs_and_mounts.mount, fs_and_mounts.filesystem)))

/-- src/lookup.rs get_alt_replicated_dataset: look the immediate mount up
in the reverse index; keep mounts whose filesystem name differs from the
immediate one but ends with it; error when the index lookup or the filter
comes up empty (the two branches build the very same error), else sort by
ascending mount-point length and pair with the immediate mount. -/
def get_alt_replicated_dataset (immediate_dataset_mount : PathBuf)
    (mount_collection : List FilesystemAndMount) :
    Except HttmError (List (PathBuf × PathBuf)) :=
  let unique_mounts := uniqueMounts mount_collection
  match lookupKey unique_mounts immediate_dataset_mount with
  | some immediate_dataset_fs_name =>
      let alt_replicated_mounts : List PathBuf :=
        (((unique_mounts.filter (fun kv => kv.2 ≠ immediate_dataset_fs_name)).filter
          (fun kv => strEndsWith kv.2 immediate_dataset_fs_name)).map (fun kv => kv.1))
      if alt_replicated_mounts.isEmpty then
        .error noAltReplicatedErr
      else
        .ok ((sortByKey pathLen alt_replicated_mounts).map
          (fun alt_replicated_mount => (alt_replicated_mount, immediate_dataset_mount)))
  | none => .error noAltReplicatedErr

/-- The (dataset_of_interest, reference mount) pairs of
src/lookup.rs get_search_dirs. -/
def datasetCollection (config : Config) (file_pathdata : PathData)
    (requested_dataset_type : NativeDatasetType) :
    Except HttmError (List (PathBuf × PathBuf)) :=
  match config.snap_point with
  | SnapPoint.UserDefined defined_dirs =>
      .ok [(defined_dirs.snap_dir, defined_dirs.snap_dir)]
  | SnapPoint.Native mount_collection =>
      match get_immediate_dataset file_pathdata mount_collection with
      | .error e => .error e
      | .ok immediate_dataset_mount =>
          match requested_dataset_type with
          | NativeDatasetType.MostImmediate =>
              .ok [(immediate_dataset_mount, immediate_dataset_mount)]
          | NativeDatasetType.AltReplicated =>
              get_alt_replicated_dataset immediate_dataset_mount mount_collection

/-- The per-pair body of src/lookup.rs get_search_dirs: the hidden snapshot
dir is the dataset of interest joined with ".zfs/snapshot"; the relative
path strips local_dir (UserDefined) or the pair's reference mount (Native)
off the input path, failing with the working-directory hint. -/
def planFor (config : Config) (file_pathdata : PathData) (pr : PathBuf × PathBuf) :
    Except HttmError SearchDirs :=
  let hidden_snapshot_dir : PathBuf := pr.1 ++ [".zfs", "snapshot"]
  match config.snap_point with
  | SnapPoint.UserDefined defined_dirs =>
      match stripPre file_pathdata.path_buf defined_dirs.local_dir with
      | some relative_path => .ok ⟨hidden_snapshot_dir, relative_path⟩
      | none => .error localDirHintErr
  | SnapPoint.Native _ =>
      match stripPre file_pathdata.path_buf pr.2 with
      | some relative_path => .ok ⟨hidden_snapshot_dir, relative_path⟩
      | none => .error snapDirHintErr

/-- collect::<Result<Vec,_>> over the pairs: first error wins. -/
def buildPlans (config : Config) (file_pathdata : PathData) :
    List (PathBuf × PathBuf) → Except HttmError (List SearchDirs)
  | [] => .ok []
  | pr :: rest =>
      match planFor config file_pathdata pr with
      | .error e => .error e
      | .ok sd =>
          match buildPlans config file_pathdata rest with
          | .error e => .error e
          | .ok sds => .ok (sd :: sds)

/-- src/lookup.rs get_search_dirs. -/
def get_search_dirs (config : Config) (file_pathdata : PathData)
    (requested_dataset_type : NativeDatasetType) :
    Except HttmError (List SearchDirs) :=
  match datasetCollection config file_pathdata requested_dataset_type with
  | .error e => .error e
  | .ok dataset_collection => buildPlans config file_pathdata dataset_collection

/-- src/lookup.rs get_versions: read the snapshot root (propagating its
failure), synthesize each snapshot entry joined with the relative path,
drop phantoms, deduplicate by the (system_time, size) key, sort ascending
by system_time. -/
def get_versions (fs : Filesystem) (search_dirs : SearchDirs) :
    Option (List PathData) :=
  match fs.readDir search_dirs.hidden_snapshot_dir with
  | none => none
  | some entries =>
      let records : List PathData := entries.map (fun entry =>
        PathData.fromPath fs
          (search_dirs.hidden_snapshot_dir ++ [entry.fileName] ++ search_dirs.relative_path))
      let surviving := records.filter (fun pathdata => !pathdata.is_phantom)
      let unique_versions :=
        hashMapOfList (surviving.map (fun pd => ((pd.system_time, pd.size), pd)))
      some (sortByKey (fun pd => pd.system_time) (unique_versions.map (fun kv => kv.2)))

/-- The key-value pairs fed to unique_snap_filenames in
src/deleted.rs get_deleted_per_dataset: every snapshot entry joined with
the relative path is listed (a failing read_dir contributes nothing), and
each listed entry is keyed by its file name. -/
def snapKVs (fs : Filesystem) (search_dirs : SearchDirs) (snapEntries : List DirEntry) :
    List (String × PathAndMaybeFileType) :=
  snapEntries.flatMap (fun s =>
    match fs.readDir
        (search_dirs.hidden_snapshot_dir ++ [s.fileName] ++ search_dirs.relative_path) with
    | some es =>
        es.map (fun e =>
          (e.fileName,
            (⟨(search_dirs.hidden_snapshot_dir ++ [s.fileName] ++
                search_dirs.relative_path) ++ [e.fileName],
              e.file_type⟩ : PathAndMaybeFileType)))
    | none => [])

/-- src/deleted.rs get_deleted_per_dataset: map the live listing and the
union of all snapshot listings by file name, then keep the snapshot-side
representatives whose file name has no live entry.  Failure to read the
requested dir or the snapshot root propagates. -/
def get_deleted_per_dataset (fs : Filesystem) (requested_dir : PathBuf)
    (search_dirs : SearchDirs) : Option (List PathAndMaybeFileType) :=
  match fs.readDir requested_dir with
  | none => none
  | some localEntries =>
      match fs.readDir search_dirs.hidden_snapshot_dir with
      | none => none
      | some snapEntries =>
          let unique_local_filenames :=
            hashMapOfList (localEntries.map (fun e =>
              (e.fileName, (⟨requested_dir ++ [e.fileName], e.file_type⟩ : PathAndMaybeFileType))))
          let unique_snap_filenames := hashMapOfList (snapKVs fs search_dirs snapEntries)
          some ((unique_snap_filenames.filter (fun kv =>
            (lookupKey unique_local_filenames kv.1).isNone)).map (fun kv => kv.2))

/-- The dataset types fanned out per request (both in lookup_exec and in
get_unique_deleted). -/
def selectedDatasetTypes (config : Config) : List NativeDatasetType :=
  if config.opt_alt_replicated then
    [NativeDatasetType.AltReplicated, NativeDatasetType.MostImmediate]
  else
    [NativeDatasetType.MostImmediate]

/-- prep_deleted of src/deleted.rs get_unique_deleted: concatenate each
plan's deleted output (plan and enumeration errors are flattened away),
drop entries whose symlink_metadata stat fails, then those whose modified()
fails, tagging the rest with the modification time. -/
def prepDeleted (fs : Filesystem) (config : Config) (requested_dir : PathBuf) :
    List (Nat × PathAndMaybeFileType) :=
  let requested_dir_pathdata := PathData.fromPath fs requested_dir
  let search_dirs : List SearchDirs :=
    (selectedDatasetTypes config).flatMap (fun dataset_type =>
      match get_search_dirs config requested_dir_pathdata dataset_type with
      | .ok sds => sds
      | .error _ => [])
  ((search_dirs.flatMap (fun sd =>
      match get_deleted_per_dataset fs requested_dir_pathdata.path_buf sd with
      | some v => v
      | none => [])).filterMap (fun x =>
        (fs.symlinkMetadata x.path).map (fun md => (md, x)))).filterMap
    (fun mdx => mdx.1.map (fun t => (t, mdx.2)))

/-- src/deleted.rs get_unique_deleted: filter out entries without a file
name, group CONSECUTIVE entries of equal file name (itertools group_by),
and keep from each group the latest entry of maximal modification time. -/
def get_unique_deleted (fs : Filesystem) (config : Config) (requested_dir : PathBuf) :
    List PathAndMaybeFileType :=
  let prep := prepDeleted fs config requested_dir
  let named := prep.filter (fun x => x.2.path.getLast?.isSome)
  let groups := named.splitBy (fun a b => a.2.path.getLast? == b.2.path.getLast?)
  (groups.filterMap (fun g => lastMaxBy (fun x => x.1) g)).map (fun x => x.2)

/-- all_snaps of src/lookup.rs lookup_exec: fan each input path out over
the selected dataset types, flatten plans (plan errors flattened away) and
version enumerations (enumeration errors flattened away). -/
def allSnaps (fs : Filesystem) (config : Config) (path_data : List PathData) :
    List PathData :=
  (path_data.flatMap (fun pd =>
    (selectedDatasetTypes config).flatMap (fun dataset_type =>
      match get_search_dirs config pd dataset_type with
      | .ok sds => sds
      | .error _ => []))).flatMap (fun sd =>
        match get_versions fs sd with
        | some pds => pds
        | none => [])

/-- live_versions of src/lookup.rs lookup_exec: the input paths unless
suppressed by opt_no_live_vers. -/
def liveVersions (config : Config) (path_data : List PathData) : List PathData :=
  if !config.opt_no_live_vers then path_data else []

/-- src/lookup.rs lookup_exec. -/
def lookup_exec (fs : Filesystem) (config : Config) (path_data : List PathData) :
    Except HttmError (List PathData × List PathData) :=
  let all_snaps := allSnaps fs config path_data
  let live_versions := liveVersions config path_data
  if all_snaps.isEmpty && live_versions.all (fun i => i.is_phantom) then
    .error nothingEverExistedErr
  else
    .ok (all_snaps, live_versions)

instance [DecidableEq ε] [DecidableEq α] : DecidableEq (Except ε α) := fun x y =>
  match x, y with
  | .ok a, .ok b =>
      if h : a = b then isTrue (congrArg Except.ok h)
      else isFalse (fun hh => h (Except.ok.inj hh))
  | .error a, .error b =>
      if h : a = b then isTrue (congrArg Except.error h)
      else isFalse (fun hh => h (Except.error.inj hh))
  | .ok _, .error _ => isFalse (fun hh => Except.noConfusion hh)
  | .error _, .ok _ => isFalse (fun hh => Except.noConfusion hh)

def fsBug : Filesystem where
  readDir p :=
    if p = ["h"] then some []
    else if p = ["bk", ".zfs", "snapshot"] then some [⟨"s1", some FileKind.dir⟩]
    else if p = ["bk", ".zfs", "snapshot", "s1", "h"] then
      some [⟨"b", some FileKind.file⟩, ⟨"a", some FileKind.file⟩]
    else if p = [".zfs", "snapshot"] then some [⟨"s1", some FileKind.dir⟩]
    else if p = [".zfs", "snapshot", "s1", "h"] then
      some [⟨"b", some FileKind.file⟩, ⟨"c", some FileKind.file⟩]
    else none
  metadata _ := none
  symlinkMetadata p :=
    if p = ["bk", ".zfs", "snapshot", "s1", "h", "b"] then some (some 1)
    else if p = ["bk", ".zfs", "snapshot", "s1", "h", "a"] then some (some 5)
    else if p = [".zfs", "snapshot", "s1", "h", "b"] then some (some 2)
    else if p = [".zfs", "snapshot", "s1", "h", "c"] then some (some 5)
    else none

def cfgBug : Config :=
  ⟨true, false, SnapPoint.Native [⟨"rpool", []⟩, ⟨"tank/rpool", ["bk"]⟩]⟩

/-- A live path /usr/bin/x over two mounts, used to instantiate the
dataset-locator theorems. -/
def pdUsrBin : PathData := ⟨["usr", "bin", "x"], 0, 0, false⟩

/-- An inventory whose two qualifying mount points are / and /usr. -/
def mountsUsr : List FilesystemAndMount :=
  [⟨"rpool", []⟩, ⟨"rpool/usr", ["usr"]⟩]

/-- An inventory with a duplicated mount point, giving a genuine tie of
greatest length among the qualifying mount points. -/
def mountsDup : List FilesystemAndMount :=
  [⟨"a", ["usr"]⟩, ⟨"b", ["usr"]⟩]

/-- An inventory carrying one replicated mirror: rpool at / is replicated
to tank/rpool at /bk. -/
def mountsRepl : List FilesystemAndMount :=
  [⟨"rpool", []⟩, ⟨"tank/rpool", ["bk"]⟩]

/-- The base directory stripped off the input path for a given
(dataset_of_interest, reference) pair, as the source's match on the snap
point chooses it: local_dir under UserDefined, the pair's reference mount
under Native. -/
def referenceDir (config : Config) (pr : PathBuf × PathBuf) : PathBuf :=
  match config.snap_point with
  | SnapPoint.UserDefined defined_dirs => defined_dirs.local_dir
  | SnapPoint.Native _ => pr.2

/-- The working-directory hint error the source raises, per topology. -/
def wrongWorkingDirErr (config : Config) : HttmError :=
  match config.snap_point with
  | SnapPoint.UserDefined _ => localDirHintErr
  | SnapPoint.Native _ => snapDirHintErr

/-- A filesystem with two snapshots of one file /f bearing distinct
modification times, for instantiating the version-collector theorem. -/
def fsVer : Filesystem where
  readDir p :=
    if p = [".zfs", "snapshot"] then
      some [⟨"s1", some FileKind.dir⟩, ⟨"s2", some FileKind.dir⟩]
    else none
  metadata p :=
    if p = [".zfs", "snapshot", "s1", "f"] then some (3, 10)
    else if p = [".zfs", "snapshot", "s2", "f"] then some (1, 10)
    else none
  symlinkMetadata _ := none

/-- The plan probing /f under the snapshot root of fsVer. -/
def sdVer : SearchDirs := ⟨[".zfs", "snapshot"], ["f"]⟩

/-- The snapshot-root listing of fsVer. -/
def entVer : List DirEntry := [⟨"s1", some FileKind.dir⟩, ⟨"s2", some FileKind.dir⟩]

/-- What get_versions returns on fsVer: both records, ascending by mtime. -/
def outVer : List PathData :=
  [⟨[".zfs", "snapshot", "s2", "f"], 1, 10, false⟩,
   ⟨[".zfs", "snapshot", "s1", "f"], 3, 10, false⟩]

/-- The immediate plan of cfgBug for the directory /h. -/
def sdDel : SearchDirs := ⟨[".zfs", "snapshot"], ["h"]⟩

/-- What get_deleted_per_dataset returns on fsBug for (/h, sdDel). -/
def outDel : List PathAndMaybeFileType :=
  [⟨[".zfs", "snapshot", "s1", "h", "b"], some FileKind.file⟩,
   ⟨[".zfs", "snapshot", "s1", "h", "c"], some FileKind.file⟩]

/-- A filesystem on which every read fails. -/
def fsNone : Filesystem where
  readDir _ := none
  metadata _ := none
  symlinkMetadata _ := none

/-- A Native config over a single mount of / that keeps live copies. -/
def cfgKeepLive : Config := ⟨false, false, SnapPoint.Native [⟨"t", []⟩]⟩

/-- The same config with live copies suppressed. -/
def cfgNoLive : Config := ⟨false, true, SnapPoint.Native [⟨"t", []⟩]⟩

/-- A live, non-phantom input path /f. -/
def pdLive : PathData := ⟨["f"], 7, 9, false⟩

/-! ### Helper lemmas and claim theorems -/

theorem lastMaxBy_append_one (key : α → Nat) (l : List α) (a : α) :
    lastMaxBy key (l ++ [a]) =
      match lastMaxBy key l with
      | none => some a
      | some b => if key b ≤ key a then some a else some b := by
  simp [lastMaxBy, List.foldl_append]

theorem lastMaxBy_eq_none (key : α → Nat) (l : List α) :
    lastMaxBy key l = none ↔ l = [] := by
  induction l using List.reverseRecOn with
  | nil => simp [lastMaxBy]
  | append_singleton l a ih =>
      rw [lastMaxBy_append_one]
      cases h : lastMaxBy key l with
      | none => simp
      | some b =>
          constructor
          · intro hc
            by_cases hk : key b ≤ key a <;> simp [hk] at hc
          · intro hc
            exact absurd hc (by simp)

theorem lastMaxBy_spec (key : α → Nat) (l : List α) (m : α)
    (h : lastMaxBy key l = some m) :
    ∃ l₁ l₂, l = l₁ ++ m :: l₂ ∧ (∀ x ∈ l, key x ≤ key m) ∧
      ∀ x ∈ l₂, key x < key m := by
  induction l using List.reverseRecOn generalizing m with
  | nil => simp [lastMaxBy] at h
  | append_singleton l a ih =>
      rw [lastMaxBy_append_one] at h
      cases hl : lastMaxBy key l with
      | none =>
          rw [hl] at h
          have hnil : l = [] := (lastMaxBy_eq_none key l).mp hl
          subst hnil
          simp at h
          subst h
          exact ⟨[], [], by simp, by simp, by simp⟩
      | some b =>
          rw [hl] at h
          obtain ⟨l₁, l₂, hdec, hmax, hlt⟩ := ih b hl
          by_cases hk : key b ≤ key a
          · simp only [hk, if_true] at h
            cases h
            refine ⟨l, [], by simp, ?_, by simp⟩
            intro x hx
            rcases List.mem_append.mp hx with hx | hx
            · exact le_trans (hmax x hx) hk
            · simp at hx
              subst hx
              exact le_refl _
          · simp only [hk, if_false] at h
            cases h
            refine ⟨l₁, l₂ ++ [a], by simp [hdec], ?_, ?_⟩
            · intro x hx
              rcases List.mem_append.mp hx with hx | hx
              · exact hmax x hx
              · simp at hx
                subst hx
                exact le_of_lt (Nat.lt_of_not_le hk)
            · intro x hx
              rcases List.mem_append.mp hx with hx | hx
              · exact hlt x hx
              · simp at hx
                subst hx
                exact Nat.lt_of_not_le hk

theorem lastMaxBy_mem (key : α → Nat) (l : List α) (m : α)
    (h : lastMaxBy key l = some m) : m ∈ l := by
  obtain ⟨l₁, l₂, hdec, _, _⟩ := lastMaxBy_spec key l m h
  subst hdec
  simp

theorem lastMaxBy_le (key : α → Nat) (l : List α) (m : α)
    (h : lastMaxBy key l = some m) : ∀ x ∈ l, key x ≤ key m :=
  (lastMaxBy_spec key l m h).choose_spec.choose_spec.2.1

theorem mem_insertKV [DecidableEq κ] (k : κ) (v : α) (m : List (κ × α)) (p : κ × α)
    (h : p ∈ insertKV k v m) : p = (k, v) ∨ p ∈ m := by
  induction m with
  | nil => simpa [insertKV] using h
  | cons kv rest ih =>
      simp only [insertKV] at h
      split at h
      · rcases List.mem_cons.mp h with h | h
        · exact Or.inl h
        · exact Or.inr (List.mem_cons_of_mem _ h)
      · rcases List.mem_cons.mp h with h | h
        · exact Or.inr (by simp [h])
        · rcases ih h with h | h
          · exact Or.inl h
          · exact Or.inr (List.mem_cons_of_mem _ h)

theorem mem_keys_insertKV [DecidableEq κ] (k : κ) (v : α) (m : List (κ × α)) (k' : κ) :
    k' ∈ (insertKV k v m).map Prod.fst ↔ k' = k ∨ k' ∈ m.map Prod.fst := by
  induction m with
  | nil => simp [insertKV, eq_comm]
  | cons kv rest ih =>
      simp only [insertKV]
      split
      · next heq => simp [heq, eq_comm]
      · next hne =>
          simp only [List.map_cons, List.mem_cons, ih]
          tauto

theorem nodup_keys_insertKV [DecidableEq κ] (k : κ) (v : α) (m : List (κ × α))
    (h : (m.map Prod.fst).Nodup) : ((insertKV k v m).map Prod.fst).Nodup := by
  induction m with
  | nil => simp [insertKV]
  | cons kv rest ih =>
      simp only [List.map_cons, List.nodup_cons] at h
      obtain ⟨hnot, hnd⟩ := h
      simp only [insertKV]
      split
      · next heq =>
          simp only [List.map_cons, List.nodup_cons]
          exact ⟨heq ▸ hnot, hnd⟩
      · next hne =>
          simp only [List.map_cons, List.nodup_cons]
          refine ⟨?_, ih hnd⟩
          intro hc
          rcases (mem_keys_insertKV k v rest kv.1).mp hc with hc | hc
          · exact hne hc
          · exact hnot hc

theorem mem_hashMapFold [DecidableEq κ] (kvs : List (κ × α)) :
    ∀ (m₀ : List (κ × α)) (p : κ × α),
      p ∈ kvs.foldl (fun m kv => insertKV kv.1 kv.2 m) m₀ → p ∈ m₀ ∨ p ∈ kvs := by
  induction kvs with
  | nil =>
      intro m₀ p h
      exact Or.inl (by simpa using h)
  | cons kv rest ih =>
      intro m₀ p h
      simp only [List.foldl_cons] at h
      rcases ih _ p h with h | h
      · rcases mem_insertKV kv.1 kv.2 m₀ p h with h | h
        · exact Or.inr (by simp [h])
        · exact Or.inl h
      · exact Or.inr (List.mem_cons_of_mem _ h)

theorem mem_keys_hashMapFold [DecidableEq κ] (kvs : List (κ × α)) :
    ∀ (m₀ : List (κ × α)) (k : κ),
      k ∈ (kvs.foldl (fun m kv => insertKV kv.1 kv.2 m) m₀).map Prod.fst ↔
        k ∈ m₀.map Prod.fst ∨ k ∈ kvs.map Prod.fst := by
  induction kvs with
  | nil => simp
  | cons kv rest ih =>
      intro m₀ k
      simp only [List.foldl_cons, ih, mem_keys_insertKV, List.map_cons, List.mem_cons]
      tauto

theorem nodup_keys_hashMapFold [DecidableEq κ] (kvs : List (κ × α)) :
    ∀ m₀ : List (κ × α), (m₀.map Prod.fst).Nodup →
      ((kvs.foldl (fun m kv => insertKV kv.1 kv.2 m) m₀).map Prod.fst).Nodup := by
  induction kvs with
  | nil =>
      intro m₀ h
      simpa using h
  | cons kv rest ih =>
      intro m₀ h
      exact ih _ (nodup_keys_insertKV _ _ _ h)

theorem mem_hashMapOfList [DecidableEq κ] (kvs : List (κ × α)) (p : κ × α)
    (h : p ∈ hashMapOfList kvs) : p ∈ kvs := by
  rcases mem_hashMapFold kvs [] p h with h | h
  · simp at h
  · exact h

theorem mem_keys_hashMapOfList [DecidableEq κ] (kvs : List (κ × α)) (k : κ) :
    k ∈ (hashMapOfList kvs).map Prod.fst ↔ k ∈ kvs.map Prod.fst := by
  rw [hashMapOfList, mem_keys_hashMapFold]
  simp

theorem nodup_keys_hashMapOfList [DecidableEq κ] (kvs : List (κ × α)) :
    ((hashMapOfList kvs).map Prod.fst).Nodup :=
  nodup_keys_hashMapFold kvs [] (by simp)

theorem lookupKey_eq_none [DecidableEq κ] (m : List (κ × α)) (k : κ) :
    lookupKey m k = none ↔ k ∉ m.map Prod.fst := by
  induction m with
  | nil => simp [lookupKey]
  | cons kv rest ih =>
      simp only [lookupKey, List.map_cons, List.mem_cons]
      split
      · next heq => simp [heq]
      · next hne =>
          rw [ih]
          constructor
          · intro h hc
            rcases hc with hc | hc
            · exact hne hc.symm
            · exact h hc
          · intro h hc
            exact h (Or.inr hc)

theorem lookupKey_of_mem [DecidableEq κ] (m : List (κ × α))
    (hnd : (m.map Prod.fst).Nodup) (kv : κ × α) (h : kv ∈ m) :
    lookupKey m kv.1 = some kv.2 := by
  induction m with
  | nil => simp at h
  | cons kv' rest ih =>
      simp only [List.map_cons, List.nodup_cons] at hnd
      rcases List.mem_cons.mp h with h | h
      · subst h
        simp [lookupKey]
      · have hne : kv'.1 ≠ kv.1 := by
          intro he
          exact hnd.1 (he ▸ List.mem_map.mpr ⟨kv, h, rfl⟩)
        simp [lookupKey, hne, ih hnd.2 h]

theorem mem_keys_iff [DecidableEq κ] (m : List (κ × α)) (k : κ) :
    k ∈ m.map Prod.fst ↔ ∃ v, (k, v) ∈ m := by
  constructor
  · intro h
    rcases List.mem_map.mp h with ⟨p, hp, he⟩
    subst he
    exact ⟨p.2, hp⟩
  · rintro ⟨v, hv⟩
    exact List.mem_map.mpr ⟨(k, v), hv, rfl⟩

theorem perm_insertByKey (key : α → Nat) (a : α) (l : List α) :
    List.Perm (insertByKey key a l) (a :: l) := by
  induction l with
  | nil => simp [insertByKey]
  | cons b bs ih =>
      simp only [insertByKey]
      split
      · exact List.Perm.refl _
      · exact (ih.cons b).trans (List.Perm.swap a b bs)

theorem perm_sortByKey (key : α → Nat) (l : List α) :
    List.Perm (sortByKey key l) l := by
  induction l with
  | nil => simp [sortByKey]
  | cons a as ih =>
      simp only [sortByKey]
      exact (perm_insertByKey key a _).trans (ih.cons a)

theorem mem_insertByKey (key : α → Nat) (a : α) (l : List α) (x : α) :
    x ∈ insertByKey key a l ↔ x = a ∨ x ∈ l := by
  rw [(perm_insertByKey key a l).mem_iff]
  simp

theorem sorted_insertByKey (key : α → Nat) (a : α) (l : List α)
    (h : l.Pairwise (fun x y => key x ≤ key y)) :
    (insertByKey key a l).Pairwise (fun x y => key x ≤ key y) := by
  induction l with
  | nil => simp [insertByKey]
  | cons b bs ih =>
      rcases List.pairwise_cons.mp h with ⟨hb, hbs⟩
      simp only [insertByKey]
      split
      · next hk =>
          refine List.pairwise_cons.mpr ⟨?_, h⟩
          intro x hx
          rcases List.mem_cons.mp hx with hx | hx
          · subst hx
            exact hk
          · exact le_trans hk (hb x hx)
      · next hk =>
          refine List.pairwise_cons.mpr ⟨?_, ih hbs⟩
          intro x hx
          rcases (mem_insertByKey key a bs x).mp hx with hx | hx
          · subst hx
            exact Nat.le_of_not_le hk
          · exact hb x hx

theorem sorted_sortByKey (key : α → Nat) (l : List α) :
    (sortByKey key l).Pairwise (fun x y => key x ≤ key y) := by
  induction l with
  | nil => simp [sortByKey]
  | cons a as ih =>
      simp only [sortByKey]
      exact sorted_insertByKey key a _ ih

/-- C3: for every input path and mount inventory, get_immediate_dataset
returns a mount point that is a component-wise path prefix of the parent
of the path (the filesystem root when the parent is undefined; parentFolder
realizes both) and whose mount-point length is maximal among all mount
points that are such prefixes; when no mount point is a prefix of the
parent it fails with the NoQualifyingDataset error. -/
theorem get_immediate_dataset_longest_qualifying
    (pathdata : PathData) (mounts : List FilesystemAndMount) :
    (∀ m, get_immediate_dataset pathdata mounts = .ok m →
      m.isPrefixOf (parentFolder pathdata) = true ∧
      m ∈ mounts.map FilesystemAndMount.mount ∧
      ∀ m' ∈ mounts.map FilesystemAndMount.mount,
        m'.isPrefixOf (parentFolder pathdata) = true → pathLen m' ≤ pathLen m) ∧
    (get_immediate_dataset pathdata mounts = .error noQualifyingDatasetErr ↔
      potentialMountpoints pathdata mounts = []) := by
  constructor
  · intro m hm
    unfold get_immediate_dataset at hm
    by_cases hP : (potentialMountpoints pathdata mounts).isEmpty
    · rw [if_pos hP] at hm
      simp at hm
    · rw [if_neg hP] at hm
      cases hbest : lastMaxBy pathLen (potentialMountpoints pathdata mounts) with
      | none =>
          rw [hbest] at hm
          simp at hm
      | some b =>
          rw [hbest] at hm
          injection hm with hbm
          subst hbm
          have hmem := lastMaxBy_mem pathLen _ _ hbest
          have hle := lastMaxBy_le pathLen _ _ hbest
          rcases List.mem_filter.mp hmem with ⟨hmap, hpref⟩
          refine ⟨hpref, hmap, ?_⟩
          intro m' hm' hp'
          exact hle m' (List.mem_filter.mpr ⟨hm', hp'⟩)
  · unfold get_immediate_dataset
    by_cases hP : (potentialMountpoints pathdata mounts).isEmpty
    · rw [if_pos hP]
      simp only [List.isEmpty_iff] at hP
      simp [hP]
    · rw [if_neg hP]
      have hne : potentialMountpoints pathdata mounts ≠ [] := by
        intro hc
        exact hP (by simp [hc])
      cases hbest : lastMaxBy pathLen (potentialMountpoints pathdata mounts) with
      | none => exact absurd ((lastMaxBy_eq_none _ _).mp hbest) hne
      | some b => simp [hne]

/-- Witness for C3: on mountsUsr, /usr qualifies for /usr/bin/x, lies in
the inventory, and no qualifying mount point is longer. -/
theorem get_immediate_dataset_longest_qualifying_witness :
    (["usr"] : PathBuf).isPrefixOf (parentFolder pdUsrBin) = true ∧
    ["usr"] ∈ mountsUsr.map FilesystemAndMount.mount ∧
    ∀ m' ∈ mountsUsr.map FilesystemAndMount.mount,
      m'.isPrefixOf (parentFolder pdUsrBin) = true → pathLen m' ≤ pathLen ["usr"] :=
  (get_immediate_dataset_longest_qualifying pdUsrBin mountsUsr).1 ["usr"] (by decide)

/-- C10: get_immediate_dataset is deterministic (it is a function of the
path and the inventory alone), and whenever it succeeds the chosen mount is
the LAST element, in inventory order, of the qualifying mount points that
attains the greatest mount-point length: everything after it in the
qualifying list is strictly shorter, everything anywhere is no longer. -/
theorem get_immediate_dataset_last_max
    (pathdata : PathData) (mounts : List FilesystemAndMount) (m : PathBuf)
    (h : get_immediate_dataset pathdata mounts = .ok m) :
    get_immediate_dataset pathdata mounts = get_immediate_dataset pathdata mounts ∧
    ∃ l₁ l₂, potentialMountpoints pathdata mounts = l₁ ++ m :: l₂ ∧
      (∀ x ∈ potentialMountpoints pathdata mounts, pathLen x ≤ pathLen m) ∧
      ∀ x ∈ l₂, pathLen x < pathLen m := by
  refine ⟨rfl, ?_⟩
  unfold get_immediate_dataset at h
  by_cases hP : (potentialMountpoints pathdata mounts).isEmpty
  · rw [if_pos hP] at h
    simp at h
  · rw [if_neg hP] at h
    cases hbest : lastMaxBy pathLen (potentialMountpoints pathdata mounts) with
    | none =>
        rw [hbest] at h
        simp at h
    | some b =>
        rw [hbest] at h
        injection h with hbm
        subst hbm
        exact lastMaxBy_spec _ _ _ hbest

/-- Witness for C10 at a concrete tie: both inventory lines mount /usr, the
locator picks the later one (here equal as values), and the decomposition
exhibits it as the last maximal element. -/
theorem get_immediate_dataset_last_max_witness :
    get_immediate_dataset pdUsrBin mountsDup = get_immediate_dataset pdUsrBin mountsDup ∧
    ∃ l₁ l₂, potentialMountpoints pdUsrBin mountsDup = l₁ ++ ["usr"] :: l₂ ∧
      (∀ x ∈ potentialMountpoints pdUsrBin mountsDup, pathLen x ≤ pathLen ["usr"]) ∧
      ∀ x ∈ l₂, pathLen x < pathLen ["usr"] :=
  get_immediate_dataset_last_max pdUsrBin mountsDup ["usr"] (by decide)

/-- The mount-point keys of the reverse index are duplicate-free. -/
theorem nodup_keys_uniqueMounts (mounts : List FilesystemAndMount) :
    ((uniqueMounts mounts).map Prod.fst).Nodup := by
  unfold uniqueMounts
  exact nodup_keys_hashMapOfList _

/-- C6: under the hypothesis that the immediate mount is present in the
reverse index (with filesystem name fs0), every returned pair (alt,
immediate) satisfies fs_name(alt) ≠ fs0 and fs_name(alt) ends with fs0 as
a plain string suffix; every reverse-index entry satisfying both
conditions is returned, paired with the original immediate mount; the
result is sorted by ascending mount-point length; and an empty filter
result yields the NoAltReplicatedMount error. -/
theorem get_alt_replicated_dataset_spec
    (imm : PathBuf) (mounts : List FilesystemAndMount) (fs0 : String)
    (hfs : lookupKey (uniqueMounts mounts) imm = some fs0) :
    (∀ res, get_alt_replicated_dataset imm mounts = .ok res →
      (∀ pr ∈ res, pr.2 = imm ∧ ∃ fsn, lookupKey (uniqueMounts mounts) pr.1 = some fsn ∧
          fsn ≠ fs0 ∧ strEndsWith fsn fs0 = true) ∧
      (∀ kv ∈ uniqueMounts mounts, kv.2 ≠ fs0 → strEndsWith kv.2 fs0 = true →
        (kv.1, imm) ∈ res) ∧
      res.Pairwise (fun a b => pathLen a.1 ≤ pathLen b.1)) ∧
    ((((uniqueMounts mounts).filter (fun kv => kv.2 ≠ fs0)).filter
        (fun kv => strEndsWith kv.2 fs0)).isEmpty = true →
      get_alt_replicated_dataset imm mounts = .error noAltReplicatedErr) := by
  have hred : get_alt_replicated_dataset imm mounts =
      (if ((((uniqueMounts mounts).filter (fun kv => kv.2 ≠ fs0)).filter
            (fun kv => strEndsWith kv.2 fs0)).map (fun kv => kv.1)).isEmpty then
        Except.error noAltReplicatedErr
      else
        Except.ok ((sortByKey pathLen ((((uniqueMounts mounts).filter
            (fun kv => kv.2 ≠ fs0)).filter (fun kv => strEndsWith kv.2 fs0)).map
            (fun kv => kv.1))).map
          (fun alt_replicated_mount => (alt_replicated_mount, imm)))) := by
    simp only [get_alt_replicated_dataset, hfs]
  by_cases hemp : ((((uniqueMounts mounts).filter (fun kv => kv.2 ≠ fs0)).filter
      (fun kv => strEndsWith kv.2 fs0)).map (fun kv => kv.1)).isEmpty = true
  · rw [if_pos hemp] at hred
    constructor
    · intro res hr
      rw [hred] at hr
      simp at hr
    · intro _
      exact hred
  · rw [if_neg (by simpa using hemp)] at hred
    constructor
    · intro res hr
      rw [hred] at hr
      injection hr with hres
      subst hres
      refine ⟨?_, ?_, ?_⟩
      · intro pr hpr
        rcases List.mem_map.mp hpr with ⟨a, ha, rfl⟩
        refine ⟨rfl, ?_⟩
        have ha' : a ∈ (((uniqueMounts mounts).filter (fun kv => kv.2 ≠ fs0)).filter
            (fun kv => strEndsWith kv.2 fs0)).map (fun kv => kv.1) :=
          (perm_sortByKey pathLen _).mem_iff.mp ha
        rcases List.mem_map.mp ha' with ⟨kv, hkv, rfl⟩
        rcases List.mem_filter.mp hkv with ⟨hkv1, hends⟩
        rcases List.mem_filter.mp hkv1 with ⟨hkvum, hne⟩
        exact ⟨kv.2, lookupKey_of_mem _ (nodup_keys_uniqueMounts mounts) kv hkvum,
          of_decide_eq_true hne, hends⟩
      · intro kv hkv hne hends
        have h1 : kv ∈ (uniqueMounts mounts).filter (fun kv => kv.2 ≠ fs0) :=
          List.mem_filter.mpr ⟨hkv, decide_eq_true hne⟩
        have h2 : kv ∈ ((uniqueMounts mounts).filter (fun kv => kv.2 ≠ fs0)).filter
            (fun kv => strEndsWith kv.2 fs0) :=
          List.mem_filter.mpr ⟨h1, hends⟩
        have h3 : kv.1 ∈ (((uniqueMounts mounts).filter (fun kv => kv.2 ≠ fs0)).filter
            (fun kv => strEndsWith kv.2 fs0)).map (fun kv => kv.1) :=
          List.mem_map.mpr ⟨kv, h2, rfl⟩
        have h4 := (perm_sortByKey pathLen _).mem_iff.mpr h3
        exact List.mem_map.mpr ⟨kv.1, h4, rfl⟩
      · rw [List.pairwise_map]
        exact sorted_sortByKey pathLen _
    · intro hchain
      exfalso
      apply hemp
      simp only [List.isEmpty_iff] at hchain ⊢
      rw [hchain]
      rfl

/-- Witness for C6: on mountsRepl with immediate mount /, the reverse-index
entry (/bk, tank/rpool) qualifies and the theorem places (/bk, /) in the
result list computed by the resolver. -/
theorem get_alt_replicated_dataset_spec_witness :
    ((["bk"] : PathBuf), ([] : PathBuf)) ∈ [((["bk"] : PathBuf), ([] : PathBuf))] :=
  ((get_alt_replicated_dataset_spec [] mountsRepl "rpool" (by decide)).1
      [(["bk"], [])] (by decide)).2.1 (["bk"], "tank/rpool") (by decide) (by decide)
    (by decide)

/-- C8 amended: when the reverse index lacks the immediate mount, the
resolver fails with the very same error value as the NoAltReplicatedMount
case; the two failure conditions are not distinguishable by error kind. -/
theorem get_alt_replicated_dataset_absent_immediate
    (imm : PathBuf) (mounts : List FilesystemAndMount)
    (h : lookupKey (uniqueMounts mounts) imm = none) :
    get_alt_replicated_dataset imm mounts = .error noAltReplicatedErr := by
  simp only [get_alt_replicated_dataset, h]

/-- Witness for the amended C8: /x is not a mount point of mountsRepl and
the resolver reports the (shared) alternate-replicated error. -/
theorem get_alt_replicated_dataset_absent_immediate_witness :
    get_alt_replicated_dataset ["x"] mountsRepl = .error noAltReplicatedErr :=
  get_alt_replicated_dataset_absent_immediate ["x"] mountsRepl (by decide)

/-- C8 counterexample: with the single-line inventory [("tank", /m)], the
error produced when the reverse index lacks the immediate mount (/x) is
the same value as the error produced when the immediate mount (/m) is
present but no replica filesystem exists, refuting that the two cases
carry distinct error kinds. -/
theorem alt_replicated_error_kinds_coincide :
    get_alt_replicated_dataset ["x"] [⟨"tank", ["m"]⟩] = .error noAltReplicatedErr ∧
    get_alt_replicated_dataset ["m"] [⟨"tank", ["m"]⟩] = .error noAltReplicatedErr ∧
    get_alt_replicated_dataset ["x"] [⟨"tank", ["m"]⟩] =
      get_alt_replicated_dataset ["m"] [⟨"tank", ["m"]⟩] :=
  ⟨by decide, by decide, by decide⟩

theorem planFor_eq (config : Config) (pd : PathData) (pr : PathBuf × PathBuf) :
    planFor config pd pr =
      match stripPre pd.path_buf (referenceDir config pr) with
      | some relative_path => .ok ⟨pr.1 ++ [".zfs", "snapshot"], relative_path⟩
      | none => .error (wrongWorkingDirErr config) := by
  obtain ⟨oar, onl, sp⟩ := config
  cases sp <;> rfl

theorem planFor_error (config : Config) (pd : PathData) (pr : PathBuf × PathBuf)
    (e : HttmError) (h : planFor config pd pr = .error e) :
    e = wrongWorkingDirErr config ∧
      stripPre pd.path_buf (referenceDir config pr) = none := by
  rw [planFor_eq] at h
  cases hs : stripPre pd.path_buf (referenceDir config pr) with
  | some rel =>
      rw [hs] at h
      simp at h
  | none =>
      rw [hs] at h
      injection h with h
      exact ⟨h.symm, rfl⟩

theorem buildPlans_ok_mem (config : Config) (pd : PathData) :
    ∀ (coll : List (PathBuf × PathBuf)) (plans : List SearchDirs),
      buildPlans config pd coll = .ok plans →
      ∀ sd ∈ plans, ∃ pr ∈ coll, planFor config pd pr = .ok sd := by
  intro coll
  induction coll with
  | nil =>
      intro plans h sd hsd
      simp only [buildPlans] at h
      injection h with h
      subst h
      simp at hsd
  | cons pr rest ih =>
      intro plans h sd hsd
      simp only [buildPlans] at h
      cases hp : planFor config pd pr with
      | error e =>
          rw [hp] at h
          simp at h
      | ok sd0 =>
          rw [hp] at h
          cases hb : buildPlans config pd rest with
          | error e =>
              rw [hb] at h
              simp at h
          | ok sds =>
              rw [hb] at h
              injection h with h
              subst h
              rcases List.mem_cons.mp hsd with hsd | hsd
              · subst hsd
                exact ⟨pr, by simp, hp⟩
              · rcases ih sds hb sd hsd with ⟨pr', hpr', hok⟩
                exact ⟨pr', List.mem_cons_of_mem _ hpr', hok⟩

theorem buildPlans_error_of_strip_fail (config : Config) (pd : PathData) :
    ∀ (coll : List (PathBuf × PathBuf)) (pr : PathBuf × PathBuf), pr ∈ coll →
      stripPre pd.path_buf (referenceDir config pr) = none →
      buildPlans config pd coll = .error (wrongWorkingDirErr config) := by
  intro coll
  induction coll with
  | nil =>
      intro pr h
      simp at h
  | cons q rest ih =>
      intro pr hmem hstrip
      simp only [buildPlans]
      cases hp : planFor config pd q with
      | error e =>
          rw [(planFor_error config pd q e hp).1]
      | ok sd0 =>
          rcases List.mem_cons.mp hmem with hq | hq
          · subst hq
            rw [planFor_eq, hstrip] at hp
            simp at hp
          · rw [ih pr hq hstrip]

/-- Every pair the replica resolver returns carries the original immediate
mount as its second component. -/
theorem get_alt_replicated_dataset_snd (imm : PathBuf)
    (mounts : List FilesystemAndMount) (res : List (PathBuf × PathBuf))
    (h : get_alt_replicated_dataset imm mounts = .ok res) :
    ∀ pr ∈ res, pr.2 = imm := by
  cases hlk : lookupKey (uniqueMounts mounts) imm with
  | none =>
      simp only [get_alt_replicated_dataset, hlk] at h
      simp at h
  | some fs0 =>
      simp only [get_alt_replicated_dataset, hlk] at h
      by_cases hemp : ((((uniqueMounts mounts).filter (fun kv => kv.2 ≠ fs0)).filter
          (fun kv => strEndsWith kv.2 fs0)).map (fun kv => kv.1)).isEmpty = true
      · rw [if_pos hemp] at h
        simp at h
      · rw [if_neg hemp] at h
        injection h with h
        subst h
        intro pr hpr
        rcases List.mem_map.mp hpr with ⟨a, _, rfl⟩
        rfl

/-- C7: whenever the pair collection is resolved, every produced plan's
hidden snapshot directory is its pair's dataset of interest joined with
the literal ".zfs/snapshot" segment pair, and its relative path is the
input path with the reference directory stripped (the pair's reference
mount — the immediate dataset mount — under Native; local_dir under
UserDefined); when the strip fails for a pair of the collection,
get_search_dirs fails with the WrongWorkingDirectory hint error of the
topology. -/
theorem get_search_dirs_spec (config : Config) (pd : PathData)
    (t : NativeDatasetType) (coll : List (PathBuf × PathBuf))
    (hc : datasetCollection config pd t = .ok coll) :
    (∀ plans, get_search_dirs config pd t = .ok plans →
      ∀ sd ∈ plans, ∃ pr ∈ coll,
        sd.hidden_snapshot_dir = pr.1 ++ [".zfs", "snapshot"] ∧
        stripPre pd.path_buf (referenceDir config pr) = some sd.relative_path) ∧
    ((∃ pr ∈ coll, stripPre pd.path_buf (referenceDir config pr) = none) →
      get_search_dirs config pd t = .error (wrongWorkingDirErr config)) ∧
    (∀ mounts, config.snap_point = SnapPoint.Native mounts →
      ∀ pr ∈ coll, ∃ imm, get_immediate_dataset pd mounts = .ok imm ∧ pr.2 = imm) := by
  have hgs : get_search_dirs config pd t = buildPlans config pd coll := by
    unfold get_search_dirs
    rw [hc]
  refine ⟨?_, ?_, ?_⟩
  · intro plans hp sd hsd
    rw [hgs] at hp
    rcases buildPlans_ok_mem config pd coll plans hp sd hsd with ⟨pr, hpr, hok⟩
    rw [planFor_eq] at hok
    cases hs : stripPre pd.path_buf (referenceDir config pr) with
    | none =>
        rw [hs] at hok
        simp at hok
    | some rel =>
        rw [hs] at hok
        injection hok with hok
        subst hok
        exact ⟨pr, hpr, rfl, hs⟩
  · rintro ⟨pr, hpr, hstrip⟩
    rw [hgs]
    exact buildPlans_error_of_strip_fail config pd coll pr hpr hstrip
  · intro mounts hsp pr hpr
    simp only [datasetCollection, hsp] at hc
    cases him : get_immediate_dataset pd mounts with
    | error e =>
        simp only [him] at hc
        simp at hc
    | ok imm =>
        simp only [him] at hc
        cases t with
        | MostImmediate =>
            injection hc with hc
            subst hc
            simp at hpr
            subst hpr
            exact ⟨imm, rfl, rfl⟩
        | AltReplicated =>
            exact ⟨imm, rfl, get_alt_replicated_dataset_snd imm mounts coll hc pr hpr⟩

/-- Witness for C7 on the Native inventory of cfgBug: the immediate plan
for /h has hidden snapshot dir /.zfs/snapshot and relative path h. -/
theorem get_search_dirs_spec_witness :
    ∃ pr ∈ [(([] : PathBuf), ([] : PathBuf))],
      (⟨[".zfs", "snapshot"], ["h"]⟩ : SearchDirs).hidden_snapshot_dir =
        pr.1 ++ [".zfs", "snapshot"] ∧
      stripPre ["h"] (referenceDir cfgBug pr) =
        some (⟨[".zfs", "snapshot"], ["h"]⟩ : SearchDirs).relative_path :=
  (get_search_dirs_spec cfgBug ⟨["h"], 0, 0, true⟩ NativeDatasetType.MostImmediate
      [([], [])] (by decide)).1 [⟨[".zfs", "snapshot"], ["h"]⟩] (by decide)
    ⟨[".zfs", "snapshot"], ["h"]⟩ (by decide)

/-- C4: whenever the snapshot root of a plan can be read, get_versions
returns only non-phantom records, each synthesized as a snapshot entry
joined with the plan's relative subpath; no two returned records share the
(system_time, size) key; and the returned sequence is monotone
non-decreasing in system_time. -/
theorem get_versions_spec (fs : Filesystem) (sd : SearchDirs)
    (entries : List DirEntry) (out : List PathData)
    (hrd : fs.readDir sd.hidden_snapshot_dir = some entries)
    (hv : get_versions fs sd = some out) :
    (∀ pd ∈ out, pd.is_phantom = false) ∧
    (∀ pd ∈ out, ∃ e ∈ entries,
      pd = PathData.fromPath fs
        (sd.hidden_snapshot_dir ++ [e.fileName] ++ sd.relative_path)) ∧
    (out.map (fun pd => (pd.system_time, pd.size))).Nodup ∧
    out.Pairwise (fun a b => a.system_time ≤ b.system_time) := by
  simp only [get_versions, hrd, Option.some.injEq] at hv
  subst hv
  set records := entries.map (fun entry => PathData.fromPath fs
      (sd.hidden_snapshot_dir ++ [entry.fileName] ++ sd.relative_path)) with hrec
  set surviving := records.filter (fun pathdata => !pathdata.is_phantom) with hsurv
  set kvs := surviving.map (fun pd => ((pd.system_time, pd.size), pd)) with hkvs
  set vals := (hashMapOfList kvs).map (fun kv => kv.2) with hvals
  set out := sortByKey (fun pd => pd.system_time) vals with hout
  have hmem_surv : ∀ pd ∈ out, pd ∈ surviving := by
    intro pd hpd
    have h1 : pd ∈ vals := (perm_sortByKey (fun pd => pd.system_time) vals).subset hpd
    rcases List.mem_map.mp h1 with ⟨kv, hkv, rfl⟩
    have h2 := mem_hashMapOfList kvs kv hkv
    rw [hkvs] at h2
    rcases List.mem_map.mp h2 with ⟨pd', hpd', he⟩
    rw [← he]
    exact hpd'
  refine ⟨?_, ?_, ?_, ?_⟩
  · intro pd hpd
    have h1 := hmem_surv pd hpd
    rw [hsurv] at h1
    have h2 := (List.mem_filter.mp h1).2
    simpa using h2
  · intro pd hpd
    have h1 := hmem_surv pd hpd
    rw [hsurv] at h1
    have h2 := (List.mem_filter.mp h1).1
    rw [hrec] at h2
    rcases List.mem_map.mp h2 with ⟨e, he, hpe⟩
    exact ⟨e, he, hpe.symm⟩
  · have hkeys : ∀ kv ∈ hashMapOfList kvs, (kv.2.system_time, kv.2.size) = kv.1 := by
      intro kv hkv
      have h2 := mem_hashMapOfList kvs kv hkv
      rw [hkvs] at h2
      rcases List.mem_map.mp h2 with ⟨pd', _, he⟩
      rw [← he]
    have hvalkeys : vals.map (fun pd => (pd.system_time, pd.size)) =
        (hashMapOfList kvs).map Prod.fst := by
      rw [hvals, List.map_map]
      exact List.map_congr_left hkeys
    have hperm := (perm_sortByKey (fun pd => pd.system_time) vals).map
      (fun pd => (pd.system_time, pd.size))
    rw [hperm.nodup_iff, hvalkeys]
    exact nodup_keys_hashMapOfList kvs
  · exact sorted_sortByKey (fun pd => pd.system_time) vals

/-- Witness for C4 at the concrete snapshot layout of fsVer. -/
theorem get_versions_spec_witness :
    (∀ pd ∈ outVer, pd.is_phantom = false) ∧
    (∀ pd ∈ outVer, ∃ e ∈ entVer,
      pd = PathData.fromPath fsVer
        (sdVer.hidden_snapshot_dir ++ [e.fileName] ++ sdVer.relative_path)) ∧
    (outVer.map (fun pd => (pd.system_time, pd.size))).Nodup ∧
    outVer.Pairwise (fun a b => a.system_time ≤ b.system_time) :=
  get_versions_spec fsVer sdVer entVer outVer (by decide) (by decide)

/-- Every key-value pair fed to unique_snap_filenames carries a value
whose path ends in exactly that key (entry.path() is dir joined with
file_name). -/
theorem snapKVs_name (fs : Filesystem) (sd : SearchDirs) (snapEntries : List DirEntry) :
    ∀ kv ∈ snapKVs fs sd snapEntries, kv.2.path.getLast? = some kv.1 := by
  intro kv hkv
  unfold snapKVs at hkv
  rcases List.mem_flatMap.mp hkv with ⟨s, hs, hin⟩
  cases hr : fs.readDir (sd.hidden_snapshot_dir ++ [s.fileName] ++ sd.relative_path) with
  | none =>
      rw [hr] at hin
      simp at hin
  | some es =>
      rw [hr] at hin
      rcases List.mem_map.mp hin with ⟨e, _, rfl⟩
      exact List.getLast?_concat _

/-- C5: whenever the requested dir and the snapshot root can be read, the
file names of get_deleted_per_dataset's output are exactly the names
appearing in the listing of some snapshot entry joined with the plan's
relative subpath minus the names listed live in the requested dir, with
exactly one representative entry per surviving name. -/
theorem get_deleted_per_dataset_spec (fs : Filesystem) (requested_dir : PathBuf)
    (sd : SearchDirs) (localEntries snapEntries : List DirEntry)
    (out : List PathAndMaybeFileType)
    (hloc : fs.readDir requested_dir = some localEntries)
    (hsnap : fs.readDir sd.hidden_snapshot_dir = some snapEntries)
    (hout : get_deleted_per_dataset fs requested_dir sd = some out) :
    (∀ name : String,
      (∃ v ∈ out, v.path.getLast? = some name) ↔
        (name ∈ (snapKVs fs sd snapEntries).map Prod.fst ∧
          name ∉ localEntries.map DirEntry.fileName)) ∧
    (out.map (fun v => v.path.getLast?)).Nodup ∧
    (∀ name : String, name ∈ (snapKVs fs sd snapEntries).map Prod.fst ↔
      ∃ s ∈ snapEntries, ∃ es,
        fs.readDir (sd.hidden_snapshot_dir ++ [s.fileName] ++ sd.relative_path) = some es ∧
        name ∈ es.map DirEntry.fileName) := by
  simp only [get_deleted_per_dataset, hloc, hsnap, Option.some.injEq] at hout
  subst hout
  set localMap := hashMapOfList (localEntries.map (fun e =>
    (e.fileName, (⟨requested_dir ++ [e.fileName], e.file_type⟩ : PathAndMaybeFileType))))
    with hlm
  set snapMap := hashMapOfList (snapKVs fs sd snapEntries) with hsm
  have hlockeys : ∀ k : String,
      k ∈ localMap.map Prod.fst ↔ k ∈ localEntries.map DirEntry.fileName := by
    intro k
    rw [hlm, mem_keys_hashMapOfList, List.map_map]
    rfl
  have hsnapname : ∀ kv ∈ snapMap, kv.2.path.getLast? = some kv.1 := by
    intro kv hkv
    exact snapKVs_name fs sd snapEntries kv (mem_hashMapOfList _ kv hkv)
  refine ⟨?_, ?_, ?_⟩
  · intro name
    constructor
    · rintro ⟨v, hv, hname⟩
      rcases List.mem_map.mp hv with ⟨kv, hkvf, rfl⟩
      rcases List.mem_filter.mp hkvf with ⟨hkvm, hpred⟩
      have hn : kv.2.path.getLast? = some kv.1 := hsnapname kv hkvm
      rw [hn] at hname
      injection hname with hname
      subst hname
      constructor
      · exact List.mem_map.mpr ⟨kv, mem_hashMapOfList _ kv hkvm, rfl⟩
      · intro hc
        have h1 : lookupKey localMap kv.1 = none := by
          cases hlk : lookupKey localMap kv.1 with
          | none => rfl
          | some v' =>
              rw [hlk] at hpred
              simp at hpred
        exact (lookupKey_eq_none localMap kv.1).mp h1 ((hlockeys kv.1).mpr hc)
    · rintro ⟨hsnapmem, hlocnot⟩
      have h1 : name ∈ snapMap.map Prod.fst := by
        rw [hsm, mem_keys_hashMapOfList]
        exact hsnapmem
      rcases (mem_keys_iff snapMap name).mp h1 with ⟨v, hv⟩
      have hpred : (lookupKey localMap name).isNone = true := by
        rw [(lookupKey_eq_none localMap name).mpr (fun hc => hlocnot ((hlockeys name).mp hc))]
        rfl
      refine ⟨v, List.mem_map.mpr ⟨(name, v), List.mem_filter.mpr ⟨hv, hpred⟩, rfl⟩, ?_⟩
      exact hsnapname (name, v) hv
  · have hsub : (snapMap.filter (fun kv => (lookupKey localMap kv.1).isNone)).map Prod.fst
        |>.Sublist (snapMap.map Prod.fst) :=
      List.Sublist.map Prod.fst (List.filter_sublist snapMap)
    have hnd : ((snapMap.filter (fun kv =>
        (lookupKey localMap kv.1).isNone)).map Prod.fst).Nodup :=
      hsub.nodup (hsm ▸ nodup_keys_hashMapOfList _)
    have hmapeq : ((snapMap.filter (fun kv =>
        (lookupKey localMap kv.1).isNone)).map (fun kv => kv.2)).map
          (fun v => v.path.getLast?) =
        ((snapMap.filter (fun kv => (lookupKey localMap kv.1).isNone)).map
          Prod.fst).map Option.some := by
      rw [List.map_map, List.map_map]
      refine List.map_congr_left ?_
      intro kv hkv
      exact hsnapname kv (List.mem_filter.mp hkv).1
    rw [hmapeq]
    exact hnd.map (Option.some_injective _)
  · intro name
    constructor
    · intro h
      rcases List.mem_map.mp h with ⟨kv, hkv, rfl⟩
      unfold snapKVs at hkv
      rcases List.mem_flatMap.mp hkv with ⟨s, hs, hin⟩
      cases hr : fs.readDir (sd.hidden_snapshot_dir ++ [s.fileName] ++ sd.relative_path) with
      | none =>
          rw [hr] at hin
          simp at hin
      | some es =>
          rw [hr] at hin
          rcases List.mem_map.mp hin with ⟨e, he, rfl⟩
          exact ⟨s, hs, es, hr, List.mem_map.mpr ⟨e, he, rfl⟩⟩
    · rintro ⟨s, hs, es, hr, hname⟩
      rcases List.mem_map.mp hname with ⟨e, he, rfl⟩
      refine List.mem_map.mpr ⟨(e.fileName,
        (⟨(sd.hidden_snapshot_dir ++ [s.fileName] ++ sd.relative_path) ++ [e.fileName],
          e.file_type⟩ : PathAndMaybeFileType)), ?_, rfl⟩
      unfold snapKVs
      refine List.mem_flatMap.mpr ⟨s, hs, ?_⟩
      rw [hr]
      exact List.mem_map.mpr ⟨e, he, rfl⟩

/-- Witness for C5: on fsBug the name b is deleted (present in snapshot
s1 of /h, absent live), and the theorem produces its representative. -/
theorem get_deleted_per_dataset_spec_witness :
    ∃ v ∈ outDel, v.path.getLast? = some "b" :=
  ((get_deleted_per_dataset_spec fsBug ["h"] sdDel [] [⟨"s1", some FileKind.dir⟩] outDel
      (by decide) (by decide) (by decide)).1 "b").mpr ⟨by decide, by decide⟩

/-- C2: lookup_exec fails with the NothingEverExisted error if and only if
the collected snapshot set is empty and every live entry is phantom, where
the live set is the input paths when live copies are not suppressed and
empty when they are; it has no other error; otherwise it returns the pair
(historical, live). -/
theorem lookup_exec_spec (fs : Filesystem) (config : Config) (path_data : List PathData) :
    (lookup_exec fs config path_data = .error nothingEverExistedErr ↔
      (allSnaps fs config path_data = [] ∧
        ∀ pd ∈ liveVersions config path_data, pd.is_phantom = true)) ∧
    (∀ e, lookup_exec fs config path_data = .error e → e = nothingEverExistedErr) ∧
    (∀ hist live, lookup_exec fs config path_data = .ok (hist, live) →
      hist = allSnaps fs config path_data ∧ live = liveVersions config path_data) ∧
    liveVersions config path_data = (if config.opt_no_live_vers then [] else path_data) := by
  have hlive : liveVersions config path_data =
      (if config.opt_no_live_vers then [] else path_data) := by
    unfold liveVersions
    cases h : config.opt_no_live_vers <;> simp [h]
  have hred : lookup_exec fs config path_data =
      (if ((allSnaps fs config path_data).isEmpty &&
            (liveVersions config path_data).all (fun i => i.is_phantom)) = true then
        Except.error nothingEverExistedErr
      else
        Except.ok (allSnaps fs config path_data, liveVersions config path_data)) := by
    rfl
  by_cases hb : ((allSnaps fs config path_data).isEmpty &&
      (liveVersions config path_data).all (fun i => i.is_phantom)) = true
  · rw [if_pos hb] at hred
    have hb2 := hb
    rw [Bool.and_eq_true] at hb2
    rcases hb2 with ⟨h1, h2⟩
    refine ⟨⟨fun _ => ?_, fun _ => hred⟩, ?_, ?_, hlive⟩
    · refine ⟨List.isEmpty_iff.mp h1, fun pd hpd => ?_⟩
      have h3 := List.all_eq_true.mp h2 pd hpd
      simpa using h3
    · intro e he
      rw [hred] at he
      injection he with he
      exact he.symm
    · intro hist live h
      rw [hred] at h
      simp at h
  · rw [if_neg hb] at hred
    refine ⟨⟨fun hc => ?_, fun hc => ?_⟩, ?_, ?_, hlive⟩
    · rw [hred] at hc
      simp at hc
    · exfalso
      apply hb
      rcases hc with ⟨h1, h2⟩
      rw [Bool.and_eq_true]
      refine ⟨by simp [h1], List.all_eq_true.mpr (fun pd hpd => by simp [h2 pd hpd])⟩
    · intro e he
      rw [hred] at he
      simp at he
    · intro hist live h
      rw [hred] at h
      injection h with h
      have h1 := congrArg Prod.fst h
      have h2 := congrArg Prod.snd h
      exact ⟨h1.symm, h2.symm⟩

/-- Witness for C2: with no readable snapshot root but a non-phantom live
input, lookup_exec succeeds and returns exactly (allSnaps, liveVersions). -/
theorem lookup_exec_spec_witness :
    ([] : List PathData) = allSnaps fsNone cfgKeepLive [pdLive] ∧
    [pdLive] = liveVersions cfgKeepLive [pdLive] :=
  (lookup_exec_spec fsNone cfgKeepLive [pdLive]).2.2.1 [] [pdLive] (by decide)

/-- C9: if live copies are suppressed, then whenever the collected
snapshot set is empty lookup_exec fails with the NothingEverExisted error,
even when every input path is live with readable non-phantom metadata: the
all-entries-phantom test is vacuously true over the empty live set. -/
theorem lookup_exec_suppressed_live_vacuous (fs : Filesystem) (config : Config)
    (path_data : List PathData)
    (hsup : config.opt_no_live_vers = true)
    (hsnap : allSnaps fs config path_data = [])
    (_hlivefine : ∀ pd ∈ path_data, pd.is_phantom = false) :
    lookup_exec fs config path_data = .error nothingEverExistedErr := by
  have hlv : liveVersions config path_data = [] := by
    simp [liveVersions, hsup]
  have hred : lookup_exec fs config path_data =
      (if ((allSnaps fs config path_data).isEmpty &&
            (liveVersions config path_data).all (fun i => i.is_phantom)) = true then
        Except.error nothingEverExistedErr
      else
        Except.ok (allSnaps fs config path_data, liveVersions config path_data)) := by
    rfl
  have hb : ((allSnaps fs config path_data).isEmpty &&
      (liveVersions config path_data).all (fun i => i.is_phantom)) = true := by
    rw [hsnap, hlv]
    rfl
  rw [hred, if_pos hb]

/-- Witness for C9: the suppressed-live error fires although the sole
input path /f is live and non-phantom. -/
theorem lookup_exec_suppressed_live_vacuous_witness :
    lookup_exec fsNone cfgNoLive [pdLive] = .error nothingEverExistedErr :=
  lookup_exec_suppressed_live_vacuous fsNone cfgNoLive [pdLive] (by rfl) (by decide)
    (by decide)

/-- C1 (code bug): itertools group_by only groups CONSECUTIVE entries, and
get_unique_deleted never sorts prep_deleted by file name, so when two
plans contribute the same deleted file name non-adjacently (b from the
alt-replicated plan, then a, then b again from the immediate plan), the
output of get_unique_deleted contains TWO entries named b, and the
retained first b (mtime 1) is not the one of greatest modification time
(mtime 2) — contradicting both the claim and the source's own comments
("deduplicate by filename and latest file version here"). -/
theorem get_unique_deleted_duplicate_filenames :
    (get_unique_deleted fsBug cfgBug ["h"]).map (fun v => v.path) =
      [["bk", ".zfs", "snapshot", "s1", "h", "b"],
       ["bk", ".zfs", "snapshot", "s1", "h", "a"],
       [".zfs", "snapshot", "s1", "h", "b"],
       [".zfs", "snapshot", "s1", "h", "c"]] ∧
    ((get_unique_deleted fsBug cfgBug ["h"]).filter
      (fun v => v.path.getLast? == some "b")).length = 2 := by
  exact ⟨by decide, by decide⟩

end Httm
